import Mathlib

/-!
Verification of the hdlparse Verilog documentation parser
(src/hdlparse/verilog_parser.py) against its natural-language
specification.

The development shallowly embeds the two-layer pipeline:
  * the MiniLexer engine (state-stack tokenizer) driving the
    `verilog_tokens` rule table, and
  * the entity builder inside `parse_verilog`, a fold over the emitted
    `(action, groups)` stream.

Text is represented as `List Char`.  Each regular expression of the
`verilog_tokens` table is hand-compiled to an executable matcher that is
faithful to Python `re` semantics (greedy matching with the limited
backtracking each particular pattern can perform); the compiled pattern
is cited above each matcher.
-/

namespace Hdlparse

/-- `List Char` view of a string literal. -/
def str (s : String) : List Char := s.data

/-- The apostrophe character (used in Verilog literals such as 8'hFF). -/
def apoCh : Char := Char.ofNat 39

/-- Opening brace character. -/
def lbrace : Char := Char.ofNat 123

/-- Closing brace character. -/
def rbrace : Char := Char.ofNat 125

/-- Python `\s`: whitespace class `[ \t\n\r\f\v]`. -/
def isSpaceChar (c : Char) : Bool :=
  c = ' ' || c = '\t' || c = '\n' || c = '\r' || c = Char.ofNat 11 || c = Char.ofNat 12

/-- Python `\w`: word-character class `[A-Za-z0-9_]` (ASCII inputs). -/
def isWordChar (c : Char) : Bool :=
  c.isAlphanum || c = '_'

/-- Strip a literal prefix: `dropLit lit t = some r` iff `t = lit ++ r`. -/
def dropLit : List Char → List Char → Option (List Char)
  | [], text => some text
  | _ :: _, [] => none
  | l :: ls, c :: cs => if c = l then dropLit ls cs else none

theorem dropLit_sound : ∀ (lit text rest : List Char),
    dropLit lit text = some rest → text = lit ++ rest := by
  intro lit
  induction lit with
  | nil =>
    intro text rest h
    simp only [dropLit, Option.some.injEq] at h
    simpa using h
  | cons l ls ih =>
    intro text rest h
    cases text with
    | nil => simp [dropLit] at h
    | cons c cs =>
      simp only [dropLit] at h
      split at h
      · next heq => subst heq; simpa using ih cs rest h
      · exact absurd h (by simp)

theorem dropLit_complete : ∀ (lit rest : List Char),
    dropLit lit (lit ++ rest) = some rest := by
  intro lit
  induction lit with
  | nil => intro rest; simp [dropLit]
  | cons l ls ih => intro rest; simp [dropLit, ih]

/-- Split a character list at its first newline: returns the characters
before the newline and the characters after it. -/
def splitAtNewline : List Char → Option (List Char × List Char)
  | [] => none
  | c :: rest =>
    if c = '\n' then some ([], rest)
    else
      match splitAtNewline rest with
      | some (b, a) => some (c :: b, a)
      | none => none

theorem splitAtNewline_isSome_iff : ∀ (l : List Char),
    (splitAtNewline l).isSome ↔ '\n' ∈ l := by
  intro l
  induction l with
  | nil => simp [splitAtNewline]
  | cons c rest ih =>
    by_cases hc : c = '\n'
    · subst hc; simp [splitAtNewline]
    · simp only [splitAtNewline, if_neg hc]
      constructor
      · intro h
        have : (splitAtNewline rest).isSome := by
          cases hsm : splitAtNewline rest with
          | none => rw [hsm] at h; simp at h
          | some p => simp [hsm]
        exact List.mem_cons_of_mem _ (ih.mp this)
      · intro h
        have hrest : '\n' ∈ rest := by
          cases List.mem_cons.mp h with
          | inl he => exact absurd he.symm hc
          | inr hr => exact hr
        have := ih.mpr hrest
        cases hsm : splitAtNewline rest with
        | none => rw [hsm] at this; simp at this
        | some p => simp [hsm]

/-- Captured groups of a match, in pattern order; `none` is a group that
did not participate (Python `None`). -/
abbrev Groups := List (Option (List Char))

/-! ### Hand-compiled matchers for the patterns of `verilog_tokens`

Each matcher takes the text remaining at the cursor and returns the
captured groups together with the text remaining after the match.
Matchers for patterns starting with `\b` additionally take whether the
character before the cursor is a word character. -/

/-- Pattern `/\*` (block-comment open, used in every state). -/
def matchBlockStart (text : List Char) : Option (Groups × List Char) :=
  match dropLit (str "/*") text with
  | some rest => some ([], rest)
  | none => none

/-- Pattern `//.*\n` (silent line comment): `.*` cannot cross a newline,
so the unique match runs to the first newline, which must exist. -/
def matchLineComment (text : List Char) : Option (Groups × List Char) :=
  match dropLit (str "//") text with
  | none => none
  | some rest =>
    match splitAtNewline rest with
    | some (_, after) => some ([], after)
    | none => none

/-- Pattern `//#+(.*)\n` (root-state metacomment): `#+` is greedy and
`.` does not match `#`-backtracking never helps reach the newline, so
the match consumes the maximal `#` run and then the rest of the line. -/
def matchMetacomment (text : List Char) : Option (Groups × List Char) :=
  match dropLit (str "//#") text with
  | none => none
  | some rest =>
    match splitAtNewline (rest.dropWhile (· = '#')) with
    | some (before, after) => some ([some before], after)
    | none => none

/-- Pattern `//#\s*{{(.*)}}\n` (section marker).  `\s*` may cross
newlines; `(.*)` is greedy, so the line after the braces must end with
the two closing braces immediately before its newline. -/
def matchSectionMeta (text : List Char) : Option (Groups × List Char) :=
  match dropLit (str "//#") text with
  | none => none
  | some rest =>
    match dropLit [lbrace, lbrace] (rest.dropWhile isSpaceChar) with
    | none => none
    | some rest2 =>
      match splitAtNewline rest2 with
      | none => none
      | some (before, after) =>
        if before.reverse.take 2 = [rbrace, rbrace]
        then some ([some (before.take (before.length - 2))], after)
        else none

/-- Pattern `\bmodule\s*(\w+)\s*` (module declaration, root state). -/
def matchModuleDecl (prevW : Bool) (text : List Char) : Option (Groups × List Char) :=
  if prevW then none else
  match dropLit (str "module") text with
  | none => none
  | some r1 =>
    let r2 := r1.dropWhile isSpaceChar
    let nm := r2.takeWhile isWordChar
    if nm = [] then none
    else some ([some nm], (r2.drop nm.length).dropWhile isSpaceChar)

/-- `true` when the text does not continue with a word character, i.e. a
trailing `\b` after a word holds here. -/
def endsWordOk : List Char → Bool
  | [] => true
  | c :: _ => !(isWordChar c)

/-- Pattern `\bendmodule\b` (module close). -/
def matchEndmodule (prevW : Bool) (text : List Char) : Option (Groups × List Char) :=
  if prevW then none else
  match dropLit (str "endmodule") text with
  | none => none
  | some rest => if endsWordOk rest then some ([], rest) else none

/-- Pattern `\b(generate|endgenerate)\b` (silent).  The two alternatives
differ in their first character, so no backtracking arises. -/
def matchGenerate (prevW : Bool) (text : List Char) : Option (Groups × List Char) :=
  if prevW then none else
  match dropLit (str "generate") text with
  | some rest =>
    if endsWordOk rest then some ([some (str "generate")], rest) else none
  | none =>
    match dropLit (str "endgenerate") text with
    | some rest =>
      if endsWordOk rest then some ([some (str "endgenerate")], rest) else none
    | none => none

/-- Alternation of literal keywords each followed by `\s+` (as in
`(?:(kw1|kw2|...)\s+)?`): alternatives are tried in the table's order,
an alternative failing its mandatory whitespace falls through to the
next one.  Returns the keyword and the text after the whitespace run. -/
def tryKeywords (kws : List (List Char)) (text : List Char) :
    Option (List Char × List Char) :=
  match kws with
  | [] => none
  | k :: ks =>
    match dropLit k text with
    | some rest =>
      match rest with
      | c :: cs =>
        if isSpaceChar c then some (k, (c :: cs).dropWhile isSpaceChar)
        else tryKeywords ks text
      | [] => tryKeywords ks text
    | none => tryKeywords ks text

/-- Optional keyword group `(?:(kw...)\s+)?`: captured keyword or `none`. -/
def optKeyword (kws : List (List Char)) (text : List Char) :
    Option (List Char) × List Char :=
  match tryKeywords kws text with
  | some (k, r) => (some k, r)
  | none => (none, text)

/-- Optional capture `(\[[^]]+\])?`: a bracketed range (brackets kept in
the captured text); the group is skipped when it cannot match. -/
def matchOptBracket (text : List Char) : Option (List Char) × List Char :=
  match text with
  | '[' :: rest =>
    let content := rest.takeWhile (· ≠ ']')
    if content = [] then (none, text)
    else
      match rest.drop content.length with
      | ']' :: rest2 => (some ('[' :: (content ++ [']'])), rest2)
      | _ => (none, text)
  | _ => (none, text)

/-- `(input|inout|output)\s+` with the whitespace run consumed;
alternatives differ before any shared failure point, so a direction
that matches but lacks trailing whitespace fails the whole element. -/
def tryDirections (text : List Char) : Option (List Char × List Char) :=
  match tryKeywords [str "input", str "inout", str "output"] text with
  | some (d, r) => some (d, r)
  | none => none

/-- Keyword list of the `module`-state port rule (line 33 of the source),
in alternation order. -/
def netKeywords1 : List (List Char) :=
  [str "reg", str "supply0", str "supply1", str "tri", str "triand",
   str "trior", str "tri0", str "tri1", str "wire", str "wand",
   str "wor", str "logic"]

/-- Keyword list of the `module_port`-state rule (line 52 of the source):
same list without `logic`. -/
def netKeywords2 : List (List Char) :=
  [str "reg", str "supply0", str "supply1", str "tri", str "triand",
   str "trior", str "tri0", str "tri1", str "wire", str "wand",
   str "wor"]

/-- Parameter storage-class keywords `(signed|integer|realtime|real|time)`
in alternation order (`realtime` deliberately before `real`). -/
def paramKeywords : List (List Char) :=
  [str "signed", str "integer", str "realtime", str "real", str "time"]

/-- Pattern `parameter\s+(?:(signed|integer|realtime|real|time)\s+)?(\[[^]]+\])?`
(parameter group open; also used with a leading `\s*` in the
`parameters` state). -/
def matchParameterCore (text : List Char) : Option (Groups × List Char) :=
  match dropLit (str "parameter") text with
  | none => none
  | some rest =>
    match rest with
    | c :: cs =>
      if isSpaceChar c then
        let r1 := (c :: cs).dropWhile isSpaceChar
        let nr := optKeyword paramKeywords r1
        let vr := matchOptBracket nr.2
        some ([nr.1, vr.1], vr.2)
      else none
    | [] => none

/-- Pattern `\s*parameter\s+...` (rule 3 of the `parameters` state). -/
def matchParameterCont (text : List Char) : Option (Groups × List Char) :=
  matchParameterCore (text.dropWhile isSpaceChar)

/-- Pattern (module state, line 33):
`(input|inout|output)\s+(?:(reg|...|logic)\s+)?(?:(signed)\s+)?(\[[^]]+\])?`. -/
def matchPortDeclModule (text : List Char) : Option (Groups × List Char) :=
  match tryDirections text with
  | none => none
  | some (dir, r1) =>
    let nr := optKeyword netKeywords1 r1
    let sr := optKeyword [str "signed"] nr.2
    let vr := matchOptBracket sr.2
    some ([some dir, nr.1, sr.1, vr.1], vr.2)

/-- Pattern (module_port state, line 52):
`\s*(input|inout|output)\s+(?:(reg|...|wor)\s+)?(signed)?\s*(\[[^]]+\])?`.
Note `(signed)?` here needs no trailing whitespace. -/
def matchPortDeclPort (text : List Char) : Option (Groups × List Char) :=
  match tryDirections (text.dropWhile isSpaceChar) with
  | none => none
  | some (dir, r1) =>
    let nr := optKeyword netKeywords2 r1
    let sr : Option (List Char) × List Char :=
      match dropLit (str "signed") nr.2 with
      | some r => (some (str "signed"), r)
      | none => (none, nr.2)
    let vr := matchOptBracket (sr.2.dropWhile isSpaceChar)
    some ([some dir, nr.1, sr.1, vr.1], vr.2)

/-- Pattern `\s*(\w+)\s*,?` (port name item). -/
def matchPortParam (text : List Char) : Option (Groups × List Char) :=
  let t := text.dropWhile isSpaceChar
  let nm := t.takeWhile isWordChar
  if nm = [] then none
  else
    let r1 := (t.drop nm.length).dropWhile isSpaceChar
    match r1 with
    | ',' :: rest => some ([some nm], rest)
    | _ => some ([some nm], r1)

/-- Pattern `\s*(\w+)\s*=\s*([^,;\s]+)\s*` (parameter with default). -/
def matchParamItemWithValue (text : List Char) : Option (Groups × List Char) :=
  let t := text.dropWhile isSpaceChar
  let nm := t.takeWhile isWordChar
  if nm = [] then none
  else
    let r1 := (t.drop nm.length).dropWhile isSpaceChar
    match r1 with
    | '=' :: r2 =>
      let r3 := r2.dropWhile isSpaceChar
      let v := r3.takeWhile (fun c => !(c = ',' || c = ';' || isSpaceChar c))
      if v = [] then none
      else some ([some nm, some v], (r3.drop v.length).dropWhile isSpaceChar)
    | _ => none

/-- Pattern `\s*(\w+)[^),;]+` (bare parameter item).  `(\w+)` is greedy
but backtracks one character when the word run is followed directly by a
delimiter, letting `[^),;]+` consume that last word character. -/
def matchParamItem (text : List Char) : Option (Groups × List Char) :=
  let t := text.dropWhile isSpaceChar
  let nm := t.takeWhile isWordChar
  if nm = [] then none
  else
    let r1 := t.drop nm.length
    let tail := r1.takeWhile (fun c => !(c = ')' || c = ',' || c = ';'))
    if tail ≠ [] then some ([some nm], r1.drop tail.length)
    else if 2 ≤ nm.length then
      let nm' := nm.take (nm.length - 1)
      let r1' := t.drop (nm.length - 1)
      let tail' := r1'.takeWhile (fun c => !(c = ')' || c = ',' || c = ';'))
      some ([some nm'], r1'.drop tail'.length)
    else none

/-- Pattern `,` (silent separator). -/
def matchComma (text : List Char) : Option (Groups × List Char) :=
  match text with
  | ',' :: rest => some ([], rest)
  | _ => none

/-- Pattern `[);]` (close of a port/parameter list). -/
def matchCloseOrSemi (text : List Char) : Option (Groups × List Char) :=
  match text with
  | ')' :: rest => some ([], rest)
  | ';' :: rest => some ([], rest)
  | _ => none

/-- Pattern `\b(\w+)\s+#\s*\(` (parameterized submodule open). -/
def matchSubmoduleParamStart (prevW : Bool) (text : List Char) :
    Option (Groups × List Char) :=
  if prevW then none else
  let nm := text.takeWhile isWordChar
  if nm = [] then none
  else
    match text.drop nm.length with
    | c :: cs =>
      if isSpaceChar c then
        match (c :: cs).dropWhile isSpaceChar with
        | '#' :: r3 =>
          match r3.dropWhile isSpaceChar with
          | '(' :: r4 => some ([some nm], r4)
          | _ => none
        | _ => none
      else none
    | [] => none

/-- Pattern `\b(\w+)\s+(\w+)\s*\(` (plain submodule open). -/
def matchSubmoduleStart (prevW : Bool) (text : List Char) :
    Option (Groups × List Char) :=
  if prevW then none else
  let nm1 := text.takeWhile isWordChar
  if nm1 = [] then none
  else
    match text.drop nm1.length with
    | c :: cs =>
      if isSpaceChar c then
        let r2 := (c :: cs).dropWhile isSpaceChar
        let nm2 := r2.takeWhile isWordChar
        if nm2 = [] then none
        else
          match (r2.drop nm2.length).dropWhile isSpaceChar with
          | '(' :: r4 => some ([some nm1, some nm2], r4)
          | _ => none
      else none
    | [] => none

/-- Pattern `\s*\)\s*(\w+)\s*\(` (end of submodule parameter overrides,
start of its port list). -/
def matchSubmoduleParamEnd (text : List Char) : Option (Groups × List Char) :=
  match text.dropWhile isSpaceChar with
  | ')' :: r1 =>
    let r2 := r1.dropWhile isSpaceChar
    let nm := r2.takeWhile isWordChar
    if nm = [] then none
    else
      match (r2.drop nm.length).dropWhile isSpaceChar with
      | '(' :: r4 => some ([some nm], r4)
      | _ => none
  | _ => none

/-- Pattern `\);` (submodule close). -/
def matchEndSubmodule (text : List Char) : Option (Groups × List Char) :=
  match dropLit (str ");") text with
  | some rest => some ([], rest)
  | none => none

/-- Pattern `\.[^,)]+` (silent port/parameter connection text). -/
def matchDotConn (text : List Char) : Option (Groups × List Char) :=
  match text with
  | '.' :: rest =>
    let tail := rest.takeWhile (fun c => !(c = ',' || c = ')'))
    if tail = [] then none else some ([], rest.drop tail.length)
  | _ => none

/-- Pattern `\s+` (silent whitespace, module state). -/
def matchWhitespacePlus (text : List Char) : Option (Groups × List Char) :=
  let ws := text.takeWhile isSpaceChar
  if ws = [] then none else some ([], text.drop ws.length)

/-- Pattern `\s*\*/` (block-comment close). -/
def matchBlockEnd (text : List Char) : Option (Groups × List Char) :=
  match dropLit (str "*/") (text.dropWhile isSpaceChar) with
  | some rest => some ([], rest)
  | none => none

/-! ### The rule table `verilog_tokens` and the lexer engine -/

/-- Action names emitted by the rules of `verilog_tokens`
(`module` is the action the source spells `'module'`). -/
inductive Action where
  | block_comment
  | module
  | metacomment
  | end_module
  | parameter_start
  | module_port_start
  | submodule_param_start
  | submodule_start
  | section_meta
  | param_item_with_value
  | param_item
  | port_param
  | submodule_param_end
  | end_submodule
  | end_comment
  deriving DecidableEq, Repr

/-- Lexer state names of `verilog_tokens` (`moduleSt` is the state the
source spells `'module'`). -/
inductive LexState where
  | root
  | moduleSt
  | parameters
  | module_port
  | submodule_params
  | submodule
  | block_comment
  deriving DecidableEq, Repr

/-- A rule's optional state transition: stay, push a state, or `#pop`. -/
inductive Transition where
  | stay
  | push (s : LexState)
  | pop
  deriving DecidableEq, Repr

/-- One `(pattern, action?, next-state?)` entry of the rule table.  The
matcher receives whether the character preceding the cursor is a word
character (for patterns opening with `\b`). -/
structure Rule where
  pat : Bool → List Char → Option (Groups × List Char)
  action : Option Action
  trans : Transition

/-- The `verilog_tokens` table of src/hdlparse/verilog_parser.py, rule
for rule and in source order. -/
def verilog_tokens : LexState → List Rule
  | .root =>
    [⟨fun _ t => matchBlockStart t, some .block_comment, .push .block_comment⟩,
     ⟨fun _ t => matchLineComment t, none, .stay⟩,
     ⟨fun p t => matchModuleDecl p t, some .module, .push .moduleSt⟩,
     ⟨fun _ t => matchMetacomment t, some .metacomment, .stay⟩]
  | .moduleSt =>
    [⟨fun _ t => matchWhitespacePlus t, none, .stay⟩,
     ⟨fun _ t => matchBlockStart t, some .block_comment, .push .block_comment⟩,
     ⟨fun _ t => matchLineComment t, none, .stay⟩,
     ⟨fun p t => matchEndmodule p t, some .end_module, .pop⟩,
     ⟨fun _ t => matchParameterCore t, some .parameter_start, .push .parameters⟩,
     ⟨fun _ t => matchPortDeclModule t, some .module_port_start, .push .module_port⟩,
     ⟨fun p t => matchGenerate p t, none, .stay⟩,
     ⟨fun p t => matchSubmoduleParamStart p t, some .submodule_param_start, .push .submodule_params⟩,
     ⟨fun p t => matchSubmoduleStart p t, some .submodule_start, .push .submodule⟩,
     ⟨fun _ t => matchSectionMeta t, some .section_meta, .stay⟩]
  | .parameters =>
    [⟨fun _ t => matchBlockStart t, some .block_comment, .push .block_comment⟩,
     ⟨fun _ t => matchLineComment t, none, .stay⟩,
     ⟨fun _ t => matchParameterCont t, some .parameter_start, .stay⟩,
     ⟨fun _ t => matchParamItemWithValue t, some .param_item_with_value, .stay⟩,
     ⟨fun _ t => matchParamItem t, some .param_item, .stay⟩,
     ⟨fun _ t => matchComma t, none, .stay⟩,
     ⟨fun _ t => matchCloseOrSemi t, none, .pop⟩,
     ⟨fun _ t => matchSectionMeta t, some .section_meta, .stay⟩]
  | .module_port =>
    [⟨fun _ t => matchBlockStart t, some .block_comment, .push .block_comment⟩,
     ⟨fun _ t => matchLineComment t, none, .stay⟩,
     ⟨fun _ t => matchPortDeclPort t, some .module_port_start, .stay⟩,
     ⟨fun _ t => matchPortParam t, some .port_param, .stay⟩,
     ⟨fun _ t => matchCloseOrSemi t, none, .pop⟩,
     ⟨fun _ t => matchSectionMeta t, some .section_meta, .stay⟩]
  | .submodule_params =>
    [⟨fun _ t => matchBlockStart t, some .block_comment, .push .block_comment⟩,
     ⟨fun _ t => matchLineComment t, none, .stay⟩,
     ⟨fun _ t => matchSubmoduleParamEnd t, some .submodule_param_end, .stay⟩,
     ⟨fun _ t => matchEndSubmodule t, some .end_submodule, .pop⟩,
     ⟨fun _ t => matchDotConn t, none, .stay⟩,
     ⟨fun _ t => matchComma t, none, .stay⟩]
  | .submodule =>
    [⟨fun _ t => matchBlockStart t, some .block_comment, .push .block_comment⟩,
     ⟨fun _ t => matchLineComment t, none, .stay⟩,
     ⟨fun _ t => matchEndSubmodule t, some .end_submodule, .pop⟩,
     ⟨fun _ t => matchDotConn t, none, .stay⟩]
  | .block_comment =>
    [⟨fun _ t => matchBlockEnd t, some .end_comment, .pop⟩]

/-- Try the rules of a state in order and commit to the first match,
returning the optional emission, the transition, and the rest of the
text. -/
def firstMatch (rules : List Rule) (prevW : Bool) (text : List Char) :
    Option (Option (Action × Groups) × Transition × List Char) :=
  match rules with
  | [] => none
  | r :: rs =>
    match r.pat prevW text with
    | some (g, rest) => some (r.action.map (fun a => (a, g)), r.trans, rest)
    | none => firstMatch rs prevW text

/-- Apply a rule's transition to the state stack (head = top). -/
def applyTrans : Transition → List LexState → List LexState
  | .stay, stk => stk
  | .push s, stk => s :: stk
  | .pop, stk => stk.tail

/-- `true` when the character just before offset `n` is a word
character (word-boundary context carried to the next step). -/
def wordAt (text : List Char) (n : Nat) : Bool :=
  match text.get? (n - 1) with
  | some c => isWordChar c
  | none => false

/-- Modelled from the spec: the MiniLexer run loop
(`hdlparse/minilexer.py` is imported by the source but is not present
under src/).  Per spec section 4.1 it keeps a state stack, tries the
top state's rules in order, commits to the first match, emits the
rule's action with its captured groups (silent rules emit nothing) and
applies the transition.  For a position where no rule of the current
state matches, spec section 4.1 calls the scan fatal, but the
repository's own tests (src/test/test_verilog_parser.py) require such
characters - e.g. the `(`, `)` and `;` of every module header, matched
by no rule of the `module` state - to be skipped silently one character
at a time, as the upstream MiniLexer does; that behaviour is adopted
here.  The fuel argument bounds the number of steps; every rule of
this table consumes at least one character, so `text.length + 1`
suffices. -/
def lexRun : Nat → Bool → List LexState → List Char →
    List (Action × Groups) × List LexState
  | _, _, stack, [] => ([], stack)
  | 0, _, stack, _ => ([], stack)
  | _ + 1, _, [], _ => ([], [])
  | fuel + 1, prevW, st :: stk, c :: rest =>
    match firstMatch (verilog_tokens st) prevW (c :: rest) with
    | some (em, tr, rest') =>
      match lexRun fuel (wordAt (c :: rest) ((c :: rest).length - rest'.length))
          (applyTrans tr (st :: stk)) rest' with
      | (ems, fin) => (em.toList ++ ems, fin)
    | none => lexRun fuel (isWordChar c) (st :: stk) rest

/-- Run the lexer from the root state over a whole text, returning the
emitted `(action, groups)` stream and the final state stack. -/
def lexAll (text : List Char) : List (Action × Groups) × List LexState :=
  lexRun (text.length + 1) false [LexState.root] text

/-! ### Data model (classes of verilog_parser.py) -/

/-- `VerilogParameter`: parameter definition in a module. -/
structure VerilogParameter where
  name : List Char
  mode : Option (List Char)
  data_type : Option (List Char)
  default_value : Option (List Char)
  desc : Option (List Char)
  deriving DecidableEq, Repr

/-- `VerilogPort`: port definition in a module. -/
structure VerilogPort where
  name : List Char
  mode : Option (List Char)
  data_type : Option (List Char)
  desc : Option (List Char)
  deriving DecidableEq, Repr

/-- `VerilogSubModule`: submodule instance in a module.  The instance
name is `none` until supplied (the parameterized creation path passes
`None`). -/
structure VerilogSubModule where
  module_type : List Char
  instance_name : Option (List Char)
  port_connections : List (List Char × List Char)
  desc : Option (List Char)
  deriving DecidableEq, Repr

/-- `VerilogModule`: finalized module record.  `name` mirrors the
builder's `name` variable, which starts as `None`. -/
structure VerilogModule where
  name : Option (List Char)
  ports : List VerilogPort
  generics : List VerilogParameter
  sections : List (List Char × List (List Char))
  submodules : List VerilogSubModule
  desc : Option (List Char)
  deriving DecidableEq, Repr

/-! ### The entity builder of `parse_verilog` -/

/-- The builder's working state: the local variables of `parse_verilog`
that persist across loop iterations.  `ports` models the
`OrderedDict` as an insertion-ordered association list and `last_item`
holds the key of the port most recently assigned (the Python variable
holds a reference to that port object). -/
structure ParseState where
  name : Option (List Char)
  mode : List Char
  ptype : List Char
  metacomments : List (List Char)
  param_items : List (List Char)
  generics : List VerilogParameter
  ports : List (List Char × VerilogPort)
  sections : List (Nat × List Char)
  port_param_index : Nat
  last_item : Option (List Char)
  current_submodule : Option VerilogSubModule
  submodules : List VerilogSubModule
  objects : List VerilogModule
  deriving Repr

/-- Initial values of the builder's local variables. -/
def initState : ParseState :=
  { name := none
    mode := str "input"
    ptype := str "wire"
    metacomments := []
    param_items := []
    generics := []
    ports := []
    sections := []
    port_param_index := 0
    last_item := none
    current_submodule := none
    submodules := []
    objects := [] }

/-- Assignment into an insertion-ordered unique-key mapping
(`OrderedDict.__setitem__` / `dict.__setitem__`): an existing key keeps
its position and gets the new value, a new key is appended. -/
def odAssign {α : Type} (m : List (List Char × α)) (k : List Char) (v : α) :
    List (List Char × α) :=
  if m.any (fun kv => kv.1 == k)
  then m.map (fun kv => if kv.1 == k then (k, v) else kv)
  else m ++ [(k, v)]

/-- `str.strip()` on the captured text: whitespace removed at both ends. -/
def pyStrip (l : List Char) : List Char :=
  ((l.dropWhile isSpaceChar).reverse.dropWhile isSpaceChar).reverse

/-- Captured group `i` of an emission (`groups[i]`); the patterns make
every group the handlers read participate, so the `.getD []` default is
never exercised. -/
def grp (g : Groups) (i : Nat) : List Char :=
  (g.getD i none).getD []

/-- `sections_dict` construction at `end_module` (lines 321-327): each
recorded `(pos, section)` break-point claims the port names from the
previous break-point's position up to `pos`, guarded by
`last_pos < len(ports)`. -/
def buildSections (keys : List (List Char)) (sections : List (Nat × List Char)) :
    List (List Char × List (List Char)) :=
  (sections.foldl
    (fun (acc : List (List Char × List (List Char)) × Nat) ps =>
      if acc.2 < keys.length
      then (odAssign acc.1 ps.2 ((keys.drop acc.2).take (ps.1 - acc.2)), ps.1)
      else (acc.1, ps.1))
    ([], 0)).1

/-- One iteration of the `for pos, action, groups in lex.run(text)` loop
of `parse_verilog`, handler for handler.  A `metacomment` with a live
`last_item` updates the port stored under that key (the Python code
mutates the shared port object; after a module closed, its `last_item`
object aliases into the finalized module, an aliasing that is
unreachable because the rule table never emits `metacomment`, as proved
below). -/
def step (s : ParseState) (ag : Action × Groups) : ParseState :=
  match ag.1 with
  | .metacomment =>
    match s.last_item with
    | none => { s with metacomments := s.metacomments ++ [grp ag.2 0] }
    | some k =>
      { s with ports := s.ports.map (fun kv =>
                 if kv.1 == k then (kv.1, { kv.2 with desc := some (grp ag.2 0) }) else kv) }
  | .section_meta =>
    { s with sections := s.sections ++ [(s.port_param_index, grp ag.2 0)] }
  | .module =>
    { s with name := some (grp ag.2 0)
             generics := []
             ports := []
             param_items := []
             sections := []
             port_param_index := 0
             submodules := []
             ptype := str "wire" }
  | .submodule_param_start =>
    { s with current_submodule := some ⟨grp ag.2 0, none, [], none⟩ }
  | .submodule_param_end =>
    match s.current_submodule with
    | some sm =>
      { s with current_submodule := some { sm with instance_name := some (grp ag.2 0) } }
    | none => s
  | .submodule_start =>
    { s with current_submodule := some ⟨grp ag.2 0, some (grp ag.2 1), [], none⟩ }
  | .end_submodule =>
    match s.current_submodule with
    | some sm =>
      { s with submodules := s.submodules ++ [sm], current_submodule := none }
    | none => s
  | .parameter_start =>
    let t0 := (ag.2.getD 0 none).getD (str "wire")
    let t1 := match ag.2.getD 1 none with
      | some r => t0 ++ [' '] ++ r
      | none => t0
    { s with ptype := t1 }
  | .param_item_with_value =>
    { s with generics := s.generics ++
        [{ name := grp ag.2 0, mode := some (str "in"), data_type := some s.ptype
           default_value := some (pyStrip (grp ag.2 1)), desc := none }] }
  | .param_item =>
    let pname := pyStrip (grp ag.2 0)
    if pname ≠ [] ∧ ¬ s.generics.any (fun p => p.name == pname)
    then { s with generics := s.generics ++
        [{ name := pname, mode := some (str "in"), data_type := some s.ptype
           default_value := none, desc := none }] }
    else s
  | .module_port_start =>
    let t0 := (ag.2.getD 1 none).getD (str "wire")
    let t1 := match ag.2.getD 2 none with
      | some sg => t0 ++ [' '] ++ sg
      | none => t0
    let t2 := match ag.2.getD 3 none with
      | some r => t1 ++ [' '] ++ r
      | none => t1
    { s with mode := grp ag.2 0, ptype := t2, param_items := [] }
  | .port_param =>
    let pname := grp ag.2 0
    { s with param_items := s.param_items ++ [pname]
             ports := odAssign s.ports pname
               { name := pname, mode := some s.mode, data_type := some s.ptype, desc := none }
             port_param_index := s.port_param_index + 1
             last_item := some pname }
  | .end_module =>
    let sd := buildSections (s.ports.map (·.1)) s.sections
    let m : VerilogModule :=
      { name := s.name, ports := s.ports.map (·.2), generics := s.generics
        sections := sd, submodules := s.submodules
        desc := if s.metacomments ≠ [] then some (List.intercalate ['\n'] s.metacomments) else none }
    { s with objects := s.objects ++ [m], metacomments := [] }
  | .block_comment => s
  | .end_comment => s

/-- The entity-builder half of `parse_verilog`: fold the handlers over
an action stream. -/
def runActions (acts : List (Action × Groups)) (s : ParseState) : ParseState :=
  acts.foldl step s

/-- `parse_verilog`: tokenize the text and fold the entity builder over
the emitted stream, returning the finalized module list. -/
def parse_verilog (text : List Char) : List VerilogModule :=
  (runActions (lexAll text).1 initState).objects

/-! ### Concrete inputs used by the claim theorems -/

/-- `parameter [7:0] ADDR = 8'hFF` inside a module (the Verilog
apostrophe is spliced in as a character). -/
def addrParamText : List Char :=
  "module m5;\nparameter [7:0] ADDR = 8".data ++ [apoCh] ++ "hFF;\nendmodule\n".data

/-- The expected default value text `8'hFF`. -/
def addrDefault : List Char := ['8'] ++ [apoCh] ++ "hFF".data

/-! ### C2: composite port/parameter data_type assembly -/

/-- C2: the composite `data_type` of a parsed port is assembled from an
optional storage-class keyword (defaulting to `wire`), an optional
signedness keyword and an optional bit-range suffix, each appended with
a space: `output reg [7:0] data` yields `data_type = "reg [7:0]"`,
`input clk` yields `data_type = "wire"`, and a parameter group with no
storage class and no bit-range gets exactly the default `"wire"`. -/
theorem port_data_type_assembly :
    parse_verilog (str "module m2(output reg [7:0] data);\nendmodule\n") =
      [{ name := some (str "m2")
         ports := [⟨str "data", some (str "output"), some (str "reg [7:0]"), none⟩]
         generics := [], sections := [], submodules := [], desc := none }] ∧
    parse_verilog (str "module m3(input clk);\nendmodule\n") =
      [{ name := some (str "m3")
         ports := [⟨str "clk", some (str "input"), some (str "wire"), none⟩]
         generics := [], sections := [], submodules := [], desc := none }] ∧
    parse_verilog (str "module m1;\nparameter DEPTH = 4;\nendmodule\n") =
      [{ name := some (str "m1")
         ports := []
         generics := [⟨str "DEPTH", some (str "in"), some (str "wire"), some (str "4"), none⟩]
         sections := [], submodules := [], desc := none }] := by
  refine ⟨?_, ?_, ?_⟩ <;> decide

/-! ### C3: parameter records -/

/-- C3: `parameter WIDTH = 8` yields a parameter record named `WIDTH`
with `data_type = "wire"` and `default_value = "8"`; `parameter [7:0]
ADDR = 8'hFF` yields `data_type = "wire [7:0]"` and `default_value =
"8'hFF"`; both records have mode `"in"`. -/
theorem parameter_records :
    parse_verilog (str "module m4;\nparameter WIDTH = 8;\nendmodule\n") =
      [{ name := some (str "m4")
         ports := []
         generics := [⟨str "WIDTH", some (str "in"), some (str "wire"), some (str "8"), none⟩]
         sections := [], submodules := [], desc := none }] ∧
    parse_verilog addrParamText =
      [{ name := some (str "m5")
         ports := []
         generics := [⟨str "ADDR", some (str "in"), some (str "wire [7:0]"), some addrDefault, none⟩]
         sections := [], submodules := [], desc := none }] := by
  constructor <;> decide

/-! ### C5: submodule instantiation records -/

/-- C5: `sub_module instance1 ( .clk(clk), .rst(rst) );` inside a module
body yields exactly one SubModule record with `module_type =
"sub_module"` and `instance_name = "instance1"`, appended when its
closing token is seen; the parameterized form `fifo # ( ... ) f0 ( ... )`
converges to a record of the same shape once the params-close action
supplies the instance name. -/
theorem submodule_instantiation_records :
    parse_verilog (str "module top;\nsub_module instance1 ( .clk(clk), .rst(rst) );\nendmodule\n") =
      [{ name := some (str "top")
         ports := [], generics := [], sections := []
         submodules := [⟨str "sub_module", some (str "instance1"), [], none⟩]
         desc := none }] ∧
    parse_verilog (str "module top2;\nfifo # ( .W(8) ) f0 ( .a(b) );\nendmodule\n") =
      [{ name := some (str "top2")
         ports := [], generics := [], sections := []
         submodules := [⟨str "fifo", some (str "f0"), [], none⟩]
         desc := none }] := by
  constructor <;> decide

/-! ### C4: duplicate parameter names -/

/-- C4 counterexample: two parameter declarations with default values
and the same name `A` both produce records - the later duplicate is NOT
ignored (the duplicate check guards only the bare `param_item` path, not
`param_item_with_value`), refuting the claim that for any two
same-named parameter declarations only the first is kept. -/
theorem duplicate_parameter_with_value_kept :
    parse_verilog (str "module m6;\nparameter A = 1;\nparameter A = 2;\nendmodule\n") =
      [{ name := some (str "m6")
         ports := []
         generics :=
           [⟨str "A", some (str "in"), some (str "wire"), some (str "1"), none⟩,
            ⟨str "A", some (str "in"), some (str "wire"), some (str "2"), none⟩]
         sections := [], submodules := [], desc := none }] := by
  decide

/-- C4 (amended): only bare parameter items are deduplicated - a
`param_item` action whose stripped name is already among the module's
parameters leaves the parameter list unchanged. -/
theorem bare_duplicate_parameter_suppressed (s : ParseState) (g : Groups)
    (h : s.generics.any (fun p => p.name == pyStrip (grp g 0))) :
    (step s (Action.param_item, g)).generics = s.generics := by
  simp only [step]
  split
  · next hcond => exact absurd h (by simpa using hcond.2)
  · rfl

/-- Witness for `bare_duplicate_parameter_suppressed`: parsing
`parameter A x; parameter A y;` keeps a single record named `A`, and
the suppression theorem applies at the state reached before the second
bare item. -/
theorem bare_duplicate_parameter_suppressed_witness :
    (step { initState with
              generics := [⟨str "A", some (str "in"), some (str "wire"), none, none⟩] }
          (Action.param_item, [some (str "A")])).generics =
      [⟨str "A", some (str "in"), some (str "wire"), none, none⟩] ∧
    parse_verilog (str "module m7;\nparameter A x;\nparameter A y;\nendmodule\n") =
      [{ name := some (str "m7")
         ports := []
         generics := [⟨str "A", some (str "in"), some (str "wire"), none, none⟩]
         sections := [], submodules := [], desc := none }] :=
  ⟨bare_duplicate_parameter_suppressed
      { initState with
          generics := [⟨str "A", some (str "in"), some (str "wire"), none, none⟩] }
      [some (str "A")] (by decide),
   by decide⟩

/-! ### C6: comments and descriptions -/

/-- Input of the C6 example: a comment before any port and a line
comment immediately following the `input clk` port declaration. -/
def commentedModuleText : List Char :=
  str "// header\nmodule m10(\n// before ports\ninput clk,  // Clock input\noutput x\n);\nendmodule\n"

/-- C6 counterexample: on the claim's own example the line comment
following `input clk,` does NOT become that port's description and the
comments preceding the ports do NOT become the module's description -
every description is `none` (the silent `//.*\n` rule consumes them). -/
theorem port_comment_not_attached :
    (parse_verilog commentedModuleText).map
        (fun m => (m.desc, m.ports.map (·.desc))) =
      [(none, [none, none])] := by
  decide

/-- C6 (amended): line comments - before the module, before any port,
and trailing a port declaration - are consumed silently: the module of
the example parses to a record whose module and port descriptions are
all `none`. -/
theorem comments_silently_consumed :
    parse_verilog commentedModuleText =
      [{ name := some (str "m10")
         ports := [⟨str "clk", some (str "input"), some (str "wire"), none⟩,
                   ⟨str "x", some (str "output"), some (str "wire"), none⟩]
         generics := [], sections := [], submodules := [], desc := none }] := by
  decide

/-! ### C7: section break-points -/

/-- Action stream driving the entity builder: one module with four
ports and section markers recorded at port-count positions 0 and 2
(markers can only be fed to the builder directly, since the rule table
never emits `section_meta`, as proved below). -/
def sectionActs : List (Action × Groups) :=
  [(Action.module, [some (str "m")]),
   (Action.section_meta, [some (str "A")]),
   (Action.module_port_start, [some (str "input"), none, none, none]),
   (Action.port_param, [some (str "p0")]),
   (Action.port_param, [some (str "p1")]),
   (Action.section_meta, [some (str "B")]),
   (Action.port_param, [some (str "p2")]),
   (Action.port_param, [some (str "p3")]),
   (Action.end_module, [])]

/-- C7 counterexample: with break-points recorded at port-count
positions 0 and 2 over a 4-port module, the finalized sections mapping
is `{A ↦ [], B ↦ [p0, p1]}` - slices of lengths 0 and 2 that leave
ports `p2`, `p3` uncovered - not two slices of lengths 2 and 2 covering
all four ports: each marker claims the ports from the previous marker's
position up to its own. -/
theorem section_markers_at_0_and_2 :
    (runActions sectionActs initState).objects.map (·.sections) =
      [[(str "A", []), (str "B", [str "p0", str "p1"])]] := by
  decide

/-- C7 (amended): over any four ports, break-points at positions 0 and
2 resolve to the named slices `A ↦ []` and `B ↦ [k0, k1]`: a marker at
position `i` claims the ports from the previous marker's position up to
`i` (so the two slices have lengths 0 and 2, do not overlap, and the
ports at positions 2 and 3 belong to no section). -/
theorem section_markers_slices (k0 k1 k2 k3 : List Char) :
    buildSections [k0, k1, k2, k3] [(0, str "A"), (2, str "B")] =
      [(str "A", []), (str "B", [k0, k1])] := by
  simp [buildSections, odAssign, str]

/-! ### C8: end of input inside an unterminated construct -/

/-- A properly closed module followed by a module left unterminated at
the end of input. -/
def unterminatedText : List Char :=
  str "module good();\nendmodule\nmodule bad(input x"

/-- C8 counterexample: when the input ends inside an unterminated
module, the lexer stack is NOT back at its root entry, yet
`parse_verilog` surfaces no failure at all - it returns the normally
finalized modules (here just `good`); the unterminated module yields no
record, but no fatal structural failure reaches the caller. -/
theorem unterminated_module_no_failure :
    (lexAll unterminatedText).2 ≠ [LexState.root] ∧
    parse_verilog unterminatedText =
      [{ name := some (str "good"), ports := [], generics := []
         sections := [], submodules := [], desc := none }] := by
  constructor <;> decide

/-! ### Module open/close structure of an action stream (C1, C8) -/

/-- The module-open / module-close events of an action stream. -/
inductive MEvent where
  | openM (n : List Char)
  | closeM
  deriving DecidableEq, Repr

/-- Project an action stream onto its module-open (with the captured
module name) and module-close events. -/
def modEvents : List (Action × Groups) → List MEvent
  | [] => []
  | (Action.module, g) :: rest => MEvent.openM (grp g 0) :: modEvents rest
  | (Action.end_module, _) :: rest => MEvent.closeM :: modEvents rest
  | _ :: rest => modEvents rest

/-- The module names the builder finalizes, computed from the event
projection alone: a close records the name of the last open (`cur` is
the builder's `name` variable). -/
def emitNames : Option (List Char) → List MEvent → List (Option (List Char))
  | _, [] => []
  | _, MEvent.openM n :: rest => emitNames (some n) rest
  | cur, MEvent.closeM :: rest => cur :: emitNames cur rest

/-- Number of close events. -/
def countCloses : List MEvent → Nat
  | [] => 0
  | MEvent.closeM :: rest => countCloses rest + 1
  | _ :: rest => countCloses rest

theorem emitNames_length : ∀ (es : List MEvent) (cur : Option (List Char)),
    (emitNames cur es).length = countCloses es := by
  intro es
  induction es with
  | nil => intro cur; simp [emitNames, countCloses]
  | cons e rest ih => intro cur; cases e <;> simp [emitNames, countCloses, ih]

/-- Only the `module` handler writes the builder's `name` variable. -/
theorem step_name (s : ParseState) (a : Action) (g : Groups)
    (h : a ≠ Action.module) : (step s (a, g)).name = s.name := by
  cases a <;> simp only [step] <;> first
    | rfl
    | exact absurd rfl h
    | (split <;> rfl)

/-- The builder appends to `objects` exactly at `end_module`, recording
the current `name`; every other handler leaves `objects` unchanged. -/
theorem runActions_names : ∀ (acts : List (Action × Groups)) (s : ParseState),
    ((runActions acts s).objects).map VerilogModule.name =
      (s.objects.map VerilogModule.name) ++ emitNames s.name (modEvents acts) := by
  intro acts
  induction acts with
  | nil => intro s; simp [runActions, emitNames, modEvents]
  | cons a rest ih =>
    intro s
    obtain ⟨act, g⟩ := a
    have hr : runActions ((act, g) :: rest) s = runActions rest (step s (act, g)) := rfl
    rw [hr, ih]
    cases act <;>
      simp only [step, modEvents, emitNames] <;>
      (try split) <;>
      simp [emitNames]

/-- `emitNames` over a properly alternating open/close sequence yields
exactly the opened names in order. -/
theorem emitNames_alternating : ∀ (names : List (List Char)) (cur : Option (List Char)),
    emitNames cur (names.flatMap (fun n => [MEvent.openM n, MEvent.closeM])) =
      names.map some := by
  intro names
  induction names with
  | nil => intro cur; simp [emitNames]
  | cons n rest ih =>
    intro cur
    simp only [List.flatMap_cons, List.cons_append, List.nil_append, emitNames, List.map_cons]
    have := ih (some n)
    simpa [List.flatMap] using this

/-! ### C1: one record per properly closed module, in source order -/

/-- C1: whenever the tokenized text's module-open/module-close events
form a properly alternating sequence - each of the `n` module
declarations closes before the next opens - `parse_verilog` returns
exactly `n` module records whose names list the declarations in source
order. -/
theorem parse_verilog_properly_closed (text : List Char) (names : List (List Char))
    (h : modEvents (lexAll text).1 =
           names.flatMap (fun n => [MEvent.openM n, MEvent.closeM])) :
    (parse_verilog text).map VerilogModule.name = names.map some ∧
    (parse_verilog text).length = names.length := by
  have h1 : (parse_verilog text).map VerilogModule.name = names.map some := by
    show ((runActions (lexAll text).1 initState).objects).map VerilogModule.name
        = names.map some
    rw [runActions_names, h, emitNames_alternating]
    simp [initState]
  refine ⟨h1, ?_⟩
  have h2 := congrArg List.length h1
  simpa using h2

/-- Witness for `parse_verilog_properly_closed`: a text with two
properly closed modules `a` and `b` parses to exactly those two records
in order. -/
theorem parse_verilog_properly_closed_witness :
    (parse_verilog (str "module a();\nendmodule\nmodule b();\nendmodule\n")).map
        VerilogModule.name = [some (str "a"), some (str "b")] ∧
    (parse_verilog (str "module a();\nendmodule\nmodule b();\nendmodule\n")).length = 2 :=
  parse_verilog_properly_closed
    (str "module a();\nendmodule\nmodule b();\nendmodule\n")
    [str "a", str "b"] (by decide)

/-- C8 (amended): the parse is total and yields exactly one finalized
record per module-close event of the token stream - a module whose
close is never reached (unterminated input) contributes no record, and
no failure is signalled. -/
theorem module_records_per_close_token (text : List Char) :
    (parse_verilog text).length = countCloses (modEvents (lexAll text).1) := by
  have h1 := runActions_names (lexAll text).1 initState
  have h2 : (parse_verilog text).length =
      ((parse_verilog text).map VerilogModule.name).length := by simp
  rw [h2]
  show (((runActions (lexAll text).1 initState).objects).map VerilogModule.name).length = _
  rw [h1]
  simp [initState, emitNames_length]

/-! ### C9: port_connections is never populated -/

/-- Invariant: every submodule record the builder holds - in progress,
collected for the current module, or inside a finalized module - has an
empty connection mapping. -/
def submodulesClean (s : ParseState) : Prop :=
  (∀ sm, s.current_submodule = some sm → sm.port_connections = []) ∧
  (∀ sm ∈ s.submodules, sm.port_connections = []) ∧
  (∀ m ∈ s.objects, ∀ sm ∈ m.submodules, sm.port_connections = [])

theorem step_submodulesClean (s : ParseState) (ag : Action × Groups)
    (h : submodulesClean s) : submodulesClean (step s ag) := by
  obtain ⟨h1, h2, h3⟩ := h
  obtain ⟨act, g⟩ := ag
  cases act with
  | metacomment =>
    simp only [step]
    split <;> exact ⟨h1, h2, h3⟩
  | section_meta => exact ⟨h1, h2, h3⟩
  | module => exact ⟨h1, by simp [step], h3⟩
  | parameter_start => exact ⟨h1, h2, h3⟩
  | param_item_with_value => exact ⟨h1, h2, h3⟩
  | param_item => simp only [step]; split <;> exact ⟨h1, h2, h3⟩
  | module_port_start => exact ⟨h1, h2, h3⟩
  | port_param => exact ⟨h1, h2, h3⟩
  | block_comment => exact ⟨h1, h2, h3⟩
  | end_comment => exact ⟨h1, h2, h3⟩
  | submodule_param_start =>
    refine ⟨?_, h2, h3⟩
    intro sm hsm
    cases Option.some.inj hsm
    rfl
  | submodule_start =>
    refine ⟨?_, h2, h3⟩
    intro sm hsm
    cases Option.some.inj hsm
    rfl
  | submodule_param_end =>
    cases hc : s.current_submodule with
    | none => simp only [step, hc]; exact ⟨h1, h2, h3⟩
    | some sm0 =>
      simp only [step, hc]
      refine ⟨?_, h2, h3⟩
      intro sm hsm
      cases Option.some.inj hsm
      exact h1 sm0 hc
  | end_submodule =>
    cases hc : s.current_submodule with
    | none => simp only [step, hc]; exact ⟨h1, h2, h3⟩
    | some sm0 =>
      simp only [step, hc]
      refine ⟨fun sm hsm => (by cases hsm), ?_, h3⟩
      intro sm hsm
      rcases List.mem_append.mp hsm with hin | hin
      · exact h2 sm hin
      · cases List.mem_singleton.mp hin
        exact h1 sm0 hc
  | end_module =>
    refine ⟨h1, h2, ?_⟩
    intro m hm sm hsm
    rcases List.mem_append.mp hm with hin | hin
    · exact h3 m hin sm hsm
    · cases List.mem_singleton.mp hin
      exact h2 sm hsm

/-- The invariant is preserved over any action stream. -/
theorem runActions_submodulesClean : ∀ (acts : List (Action × Groups)) (s : ParseState),
    submodulesClean s → submodulesClean (runActions acts s) := by
  intro acts
  induction acts with
  | nil => intro s h; exact h
  | cons a rest ih =>
    intro s h
    exact ih (step s a) (step_submodulesClean s a h)

/-- C9: for every parsed input, the `port_connections` mapping of every
SubModule record is empty - the `.name(expr)` connection text is
consumed by the silent `\.[^,)]+` rules and no handler ever writes the
connection table. -/
theorem port_connections_always_empty (text : List Char) (m : VerilogModule)
    (hm : m ∈ parse_verilog text) (sm : VerilogSubModule)
    (hs : sm ∈ m.submodules) : sm.port_connections = [] := by
  have hinit : submodulesClean initState := by
    refine ⟨?_, ?_, ?_⟩ <;> simp [initState]
  have hfin := runActions_submodulesClean (lexAll text).1 initState hinit
  exact hfin.2.2 m hm sm hs

/-- Witness for `port_connections_always_empty`: the submodule parsed
from `sub s1 ( .a(b) );` has an empty connection mapping despite the
explicit `.a(b)` connection text. -/
theorem port_connections_always_empty_witness :
    (⟨str "sub", some (str "s1"), [], none⟩ : VerilogSubModule).port_connections = [] :=
  port_connections_always_empty
    (str "module w9;\nsub s1 ( .a(b) );\nendmodule\n")
    { name := some (str "w9"), ports := [], generics := [], sections := []
      submodules := [⟨str "sub", some (str "s1"), [], none⟩], desc := none }
    (by decide)
    ⟨str "sub", some (str "s1"), [], none⟩
    (by decide)

/-! ### C10: `metacomment` and `section_meta` can never be emitted

In every state that lists them, the silent line-comment rule `//.*\n`
precedes the `metacomment` / `section_meta` rules, and any text those
patterns match is also matched by `//.*\n`; under first-match-wins
ordering the two actions are therefore dead. -/

theorem mem_of_mem_dropWhile {α : Type} {p : α → Bool} {a : α} :
    ∀ {l : List α}, a ∈ l.dropWhile p → a ∈ l := by
  intro l
  induction l with
  | nil => intro h; simp at h
  | cons c rest ih =>
    intro h
    rw [List.dropWhile_cons] at h
    split at h
    · exact List.mem_cons_of_mem _ (ih h)
    · exact h

/-- The line-comment matcher succeeds as soon as `//` is followed by a
line that ends in a newline somewhere in the remaining text. -/
theorem matchLineComment_of_newline {text rest : List Char}
    (h2 : dropLit (str "//") text = some rest) (hmem : '\n' ∈ rest) :
    (matchLineComment text).isSome := by
  have hsome : (splitAtNewline rest).isSome :=
    (splitAtNewline_isSome_iff _).mpr hmem
  rcases hq : splitAtNewline rest with _ | ⟨b, a⟩
  · rw [hq] at hsome; simp at hsome
  · unfold matchLineComment
    rw [h2]
    simp [hq]

/-- Splitting `//#` off a text also splits `//` off it. -/
theorem dropLit_slashes {text rest : List Char}
    (hdl : dropLit (str "//#") text = some rest) :
    dropLit (str "//") text = some ('#' :: rest) := by
  have htext : text = str "//#" ++ rest := dropLit_sound _ _ _ hdl
  rw [htext]
  exact dropLit_complete (str "//") ('#' :: rest)

/-- Whatever `//#+(.*)\n` matches, `//.*\n` matches as well. -/
theorem matchMetacomment_lineComment {text : List Char} {x : Groups × List Char}
    (h : matchMetacomment text = some x) : (matchLineComment text).isSome := by
  unfold matchMetacomment at h
  split at h
  · exact absurd h (by simp)
  next rest hdl =>
    split at h
    next before after hsn =>
      have hmem : '\n' ∈ rest.dropWhile (· = '#') :=
        (splitAtNewline_isSome_iff _).mp (by simp [hsn])
      exact matchLineComment_of_newline (dropLit_slashes hdl)
        (List.mem_cons_of_mem _ (mem_of_mem_dropWhile hmem))
    next hsn => exact absurd h (by simp)

/-- Whatever `//#\s*{{(.*)}}\n` matches, `//.*\n` matches as well. -/
theorem matchSectionMeta_lineComment {text : List Char} {x : Groups × List Char}
    (h : matchSectionMeta text = some x) : (matchLineComment text).isSome := by
  unfold matchSectionMeta at h
  split at h
  · exact absurd h (by simp)
  next rest hdl =>
    split at h
    next hbr => exact absurd h (by simp)
    next rest2 hbr =>
      split at h
      next hsn => exact absurd h (by simp)
      next before after hsn =>
        have hmem0 : '\n' ∈ rest2 :=
          (splitAtNewline_isSome_iff _).mp (by simp [hsn])
        have hdw : rest.dropWhile isSpaceChar = [lbrace, lbrace] ++ rest2 :=
          dropLit_sound _ _ _ hbr
        have hmem1 : '\n' ∈ rest.dropWhile isSpaceChar := by
          rw [hdw]; exact List.mem_append_right _ hmem0
        exact matchLineComment_of_newline (dropLit_slashes hdl)
          (List.mem_cons_of_mem _ (mem_of_mem_dropWhile hmem1))

/-- Contrapositive form: when the line-comment rule fails, the
metacomment rule fails too. -/
theorem matchMetacomment_none {text : List Char}
    (h : matchLineComment text = none) : matchMetacomment text = none := by
  cases hm : matchMetacomment text with
  | none => rfl
  | some x =>
    have := matchMetacomment_lineComment hm
    rw [h] at this
    simp at this

/-- Contrapositive form: when the line-comment rule fails, the
section-marker rule fails too. -/
theorem matchSectionMeta_none {text : List Char}
    (h : matchLineComment text = none) : matchSectionMeta text = none := by
  cases hm : matchSectionMeta text with
  | none => rfl
  | some x =>
    have := matchSectionMeta_lineComment hm
    rw [h] at this
    simp at this

/-- In every lexer state, first-match-wins never emits `metacomment` or
`section_meta`: wherever those rules appear, the silent `//.*\n` rule
precedes them in the list and matches whenever they would. -/
theorem firstMatch_no_meta (st : LexState) (prevW : Bool) (text : List Char)
    (em : Option (Action × Groups)) (tr : Transition) (rest : List Char)
    (h : firstMatch (verilog_tokens st) prevW text = some (em, tr, rest)) :
    ∀ g : Groups,
      em ≠ some (Action.metacomment, g) ∧ em ≠ some (Action.section_meta, g) := by
  intro g
  cases st <;>
    (simp only [verilog_tokens, firstMatch] at h; repeat' split at h) <;>
    simp_all [matchMetacomment_none, matchSectionMeta_none] <;>
    (obtain ⟨hem, htr, hrest⟩ := h; subst hem; simp)

/-- No run of the lexer, from any state stack, ever emits a
`metacomment` or `section_meta` action. -/
theorem lexRun_no_meta : ∀ (fuel : Nat) (prevW : Bool) (stack : List LexState)
    (text : List Char) (a : Action) (g : Groups),
    (a, g) ∈ (lexRun fuel prevW stack text).1 →
    a ≠ Action.metacomment ∧ a ≠ Action.section_meta := by
  intro fuel
  induction fuel with
  | zero =>
    intro prevW stack text a g h
    cases text <;> simp [lexRun] at h
  | succ n ih =>
    intro prevW stack text a g h
    cases text with
    | nil => simp [lexRun] at h
    | cons c rest =>
      cases stack with
      | nil => simp [lexRun] at h
      | cons st stk =>
        simp only [lexRun] at h
        split at h
        next em tr rest' heq =>
          simp only [List.mem_append] at h
          rcases h with hin | hin
          · cases em with
            | none => simp at hin
            | some p =>
              rcases p with ⟨a', g'⟩
              simp only [Option.toList_some, List.mem_singleton,
                Prod.mk.injEq] at hin
              obtain ⟨rfl, rfl⟩ := hin
              have hfm := firstMatch_no_meta st prevW (c :: rest)
                (some (a, g)) tr rest' heq g
              constructor
              · intro hEq; exact hfm.1 (by rw [hEq])
              · intro hEq; exact hfm.2 (by rw [hEq])
          · exact ih _ _ _ a g hin
        next heq => exact ih _ _ _ a g h

/-! Builder side: with no `metacomment`/`section_meta` action in the
stream, sections stay empty and no description is ever written. -/

/-- A finalized module carrying no section slices and no descriptions. -/
def cleanModule (m : VerilogModule) : Prop :=
  m.sections = [] ∧ m.desc = none ∧
  (∀ p ∈ m.ports, p.desc = none) ∧ (∀ q ∈ m.generics, q.desc = none)

/-- Builder invariant: no pending metacomments or break-points, no
description on any working or finalized record. -/
def cleanState (s : ParseState) : Prop :=
  s.metacomments = [] ∧ s.sections = [] ∧
  (∀ kv ∈ s.ports, kv.2.desc = none) ∧
  (∀ q ∈ s.generics, q.desc = none) ∧
  (∀ m ∈ s.objects, cleanModule m)

/-- `OrderedDict` assignment preserves a pointwise value property. -/
theorem odAssign_pres {α : Type} (P : α → Prop) :
    ∀ (m : List (List Char × α)) (k : List Char) (v : α),
    (∀ kv ∈ m, P kv.2) → P v → ∀ kv ∈ odAssign m k v, P kv.2 := by
  intro m k v hm hv kv hkv
  unfold odAssign at hkv
  split at hkv
  · rcases List.mem_map.mp hkv with ⟨kw, hkw, heq⟩
    by_cases hk : kw.1 == k
    · rw [if_pos hk] at heq; cases heq; exact hv
    · rw [if_neg hk] at heq; cases heq; exact hm _ hkw
  · rcases List.mem_append.mp hkv with hin | hin
    · exact hm kv hin
    · cases List.mem_singleton.mp hin; exact hv

theorem step_cleanState (s : ParseState) (a : Action) (g : Groups)
    (hma : a ≠ Action.metacomment) (hsa : a ≠ Action.section_meta)
    (h : cleanState s) : cleanState (step s (a, g)) := by
  obtain ⟨h1, h2, h3, h4, h5⟩ := h
  cases a with
  | metacomment => exact absurd rfl hma
  | section_meta => exact absurd rfl hsa
  | module => exact ⟨h1, by simp [step], by simp [step], by simp [step], h5⟩
  | parameter_start => exact ⟨h1, h2, h3, h4, h5⟩
  | module_port_start => exact ⟨h1, h2, h3, h4, h5⟩
  | submodule_param_start => exact ⟨h1, h2, h3, h4, h5⟩
  | submodule_start => exact ⟨h1, h2, h3, h4, h5⟩
  | block_comment => exact ⟨h1, h2, h3, h4, h5⟩
  | end_comment => exact ⟨h1, h2, h3, h4, h5⟩
  | submodule_param_end =>
    cases hc : s.current_submodule <;> simp only [step, hc] <;>
      exact ⟨h1, h2, h3, h4, h5⟩
  | end_submodule =>
    cases hc : s.current_submodule <;> simp only [step, hc] <;>
      exact ⟨h1, h2, h3, h4, h5⟩
  | param_item_with_value =>
    refine ⟨h1, h2, h3, ?_, h5⟩
    intro q hq
    rcases List.mem_append.mp hq with hin | hin
    · exact h4 q hin
    · cases List.mem_singleton.mp hin; rfl
  | param_item =>
    simp only [step]
    split
    · refine ⟨h1, h2, h3, ?_, h5⟩
      intro q hq
      rcases List.mem_append.mp hq with hin | hin
      · exact h4 q hin
      · cases List.mem_singleton.mp hin; rfl
    · exact ⟨h1, h2, h3, h4, h5⟩
  | port_param =>
    refine ⟨h1, h2, ?_, h4, h5⟩
    exact odAssign_pres (fun p : VerilogPort => p.desc = none) s.ports (grp g 0)
      ⟨grp g 0, some s.mode, some s.ptype, none⟩ h3 rfl
  | end_module =>
    refine ⟨by simp [step], h2, h3, h4, ?_⟩
    intro mo hmo
    rcases List.mem_append.mp hmo with hin | hin
    · exact h5 mo hin
    · cases List.mem_singleton.mp hin
      refine ⟨?_, ?_, ?_, h4⟩
      · show buildSections (s.ports.map (·.1)) s.sections = []
        rw [h2]; rfl
      · show (if s.metacomments ≠ [] then
            some (List.intercalate ['\n'] s.metacomments) else none) = none
        rw [h1]; simp
      · intro p hp
        rcases List.mem_map.mp hp with ⟨kv, hkv, hpe⟩
        cases hpe
        exact h3 kv hkv

/-- The invariant is preserved over any action stream free of
`metacomment` / `section_meta` actions. -/
theorem runActions_cleanState : ∀ (acts : List (Action × Groups)) (s : ParseState),
    (∀ a g, (a, g) ∈ acts → a ≠ Action.metacomment ∧ a ≠ Action.section_meta) →
    cleanState s → cleanState (runActions acts s) := by
  intro acts
  induction acts with
  | nil => intro s _ h; exact h
  | cons ag rest ih =>
    intro s hacts h
    obtain ⟨a, g⟩ := ag
    have hhd := hacts a g (List.mem_cons_self _ _)
    exact ih (step s (a, g))
      (fun a' g' hin => hacts a' g' (List.mem_cons_of_mem _ hin))
      (step_cleanState s a g hhd.1 hhd.2 h)

/-! ### C10: sections and descriptions are always empty -/

/-- C10: for every input text, every module `parse_verilog` returns has
an empty `sections` mapping and a `desc` of `none`, and every port and
parameter record has a `desc` of `none`: in each lexer state the silent
`//.*\n` rule is ordered before the `metacomment` and `section_meta`
rules, so under first-match-wins ordering those actions are never
emitted and the handlers that would populate these fields never run. -/
theorem parse_no_metacomments (text : List Char) (m : VerilogModule)
    (hm : m ∈ parse_verilog text) :
    m.sections = [] ∧ m.desc = none ∧
    (∀ p ∈ m.ports, p.desc = none) ∧ (∀ q ∈ m.generics, q.desc = none) := by
  have hstream : ∀ a g, (a, g) ∈ (lexAll text).1 →
      a ≠ Action.metacomment ∧ a ≠ Action.section_meta := by
    intro a g hag
    exact lexRun_no_meta _ _ _ _ a g hag
  have hinit : cleanState initState := by
    refine ⟨rfl, rfl, ?_, ?_, ?_⟩ <;> simp [initState]
  have hfin := runActions_cleanState (lexAll text).1 initState hstream hinit
  exact hfin.2.2.2.2 m hm

/-- Witness for `parse_no_metacomments` at a concrete input with a port
and a parameter. -/
theorem parse_no_metacomments_witness :
    (⟨some (str "w10"),
      [⟨str "b", some (str "input"), some (str "wire"), none⟩],
      [⟨str "Q", some (str "in"), some (str "wire"), some (str "1"), none⟩],
      [], [], none⟩ : VerilogModule).sections = [] ∧
    (⟨some (str "w10"),
      [⟨str "b", some (str "input"), some (str "wire"), none⟩],
      [⟨str "Q", some (str "in"), some (str "wire"), some (str "1"), none⟩],
      [], [], none⟩ : VerilogModule).desc = none ∧
    (∀ p ∈ (⟨some (str "w10"),
      [⟨str "b", some (str "input"), some (str "wire"), none⟩],
      [⟨str "Q", some (str "in"), some (str "wire"), some (str "1"), none⟩],
      [], [], none⟩ : VerilogModule).ports, p.desc = none) ∧
    (∀ q ∈ (⟨some (str "w10"),
      [⟨str "b", some (str "input"), some (str "wire"), none⟩],
      [⟨str "Q", some (str "in"), some (str "wire"), some (str "1"), none⟩],
      [], [], none⟩ : VerilogModule).generics, q.desc = none) :=
  parse_no_metacomments
    (str "module w10(input b);\nparameter Q = 1;\nendmodule\n")
    ⟨some (str "w10"),
      [⟨str "b", some (str "input"), some (str "wire"), none⟩],
      [⟨str "Q", some (str "in"), some (str "wire"), some (str "1"), none⟩],
      [], [], none⟩
    (by decide)

end Hdlparse
